import Mathlib

/-!
Verification of the `dlapp` configuration library (`src/dlapp/configuration.py`).

The Python module is shallowly embedded: Python objects become Lean structures,
mutation becomes explicit state passing (each mutating operation returns the
post-state), raised exceptions become `Except`/`Option` error values, and the
instance `__dict__` of namespaces and the `namespaces` dictionary of the
manager become insertion-ordered association lists with Python `dict.update`
semantics.  Python values that flow through property records are modelled by
the dynamic value type `PyVal` (None, int, str, bool, and nested dicts, which
is what the dictionary configuration source traverses).  Caller-supplied
validate/callback hooks and formatter functions are modelled as Lean functions;
a hook "raises" by returning `some e`.  The process environment read by
`_envalias` (`os.environ`) is passed explicitly as an association list.
CPython's `re.match` with a pattern ending in `$` is modelled by `dollarMatch`:
with MULTILINE off, `$` asserts at the end of the string and also just before
a newline that ends the string, so the pattern must match the whole string or
the whole string minus one trailing newline.
-/

/-- Dynamic (Python) values stored in property records and nested
configuration dictionaries. -/
inductive PyVal where
  | none : PyVal
  | int (n : Int) : PyVal
  | str (s : String) : PyVal
  | bool (b : Bool) : PyVal
  | dict (es : List (String × PyVal)) : PyVal

/-- The exception taxonomy of `configuration.py`, plus the builtin Python
exceptions the code can let escape (`KeyError`, `TypeError`, `AttributeError`)
and `userError` for exceptions raised by caller-supplied hooks. -/
inductive PyExc where
  | configPropertyValueNotSet (name : String)
  | configPropertyBadName (name : String)
  | configPropertyNotFound (name : String)
  | configNamespaceDuplicateProperty (name : String)
  | configNamespaceBadName (name : String)
  | configManagerBadVersion
  | configManagerDuplicateNamespace (name : String)
  | configManagerMissingNamespace (name : String)
  | keyError
  | typeError
  | attributeError
  | userError (msg : String)
deriving DecidableEq

/-- Lookup in an insertion-ordered association list (a Python `dict`). -/
def dlookup {α : Type} : List (String × α) → String → Option α
  | [], _ => Option.none
  | (k, v) :: rest, key => if k = key then some v else dlookup rest key

/-- Python `key in dict`. -/
def dhaskey {α : Type} (d : List (String × α)) (key : String) : Bool :=
  (dlookup d key).isSome

/-- Python `dict[key] = v` / single-key `dict.update`: replace the value in
place if the key exists, otherwise append (insertion order preserved). -/
def dinsert {α : Type} : List (String × α) → String → α → List (String × α)
  | [], key, v => [(key, v)]
  | (k, w) :: rest, key, v =>
    if k = key then (k, v) :: rest else (k, w) :: dinsert rest key v

/-- Python `dict.update(other)` applied pair by pair. -/
def dupdate {α : Type} (d upd : List (String × α)) : List (String × α) :=
  upd.foldl (fun acc kv => dinsert acc kv.1 kv.2) d

theorem dlookup_dinsert_self {α : Type} (d : List (String × α)) (k : String) (v : α) :
    dlookup (dinsert d k v) k = some v := by
  induction d with
  | nil => simp [dinsert, dlookup]
  | cons hd tl ih =>
    by_cases h : hd.1 = k
    · simp [dinsert, dlookup, h]
    · simp [dinsert, dlookup, h, ih]

theorem dlookup_dinsert_ne {α : Type} (d : List (String × α)) (k k' : String) (v : α)
    (h : k ≠ k') : dlookup (dinsert d k v) k' = dlookup d k' := by
  induction d with
  | nil => simp [dinsert, dlookup, h]
  | cons hd tl ih =>
    by_cases hk : hd.1 = k
    · simp [dinsert, dlookup, hk, h]
    · simp [dinsert, dlookup, hk, ih]

/-- `NS_SEP = '.'` from the source. -/
def NS_SEP : Char := '.'

/-- `DEFAULT_NS = '__DEFAULT'` from the source. -/
def DEFAULT_NS : String := "__DEFAULT"

/-- `UNSET_STR = '(unset)'` from the source. -/
def UNSET_STR : String := "(unset)"

/-- The character class `[A-Za-z]` (ASCII letters, as in the source regexes). -/
def isLetterChar (c : Char) : Bool := c.isAlpha

/-- The character class `[_a-zA-Z0-9]`. -/
def isWordChar (c : Char) : Bool := c.isAlpha || c.isDigit || c == '_'

/-- CPython `re.match` with a pattern whose last token is `$` (MULTILINE
off): the pattern matches the whole string, or — since `$` also asserts just
before a newline ending the string — the whole string minus one trailing
newline. -/
def dollarMatch (pat : List Char → Bool) (l : List Char) : Bool :=
  pat l || (l.getLast? == some '\n' && pat l.dropLast)

/-- The pattern `[A-Za-z][_a-zA-Z0-9]*` of `VALID_PROPERTY_NAMES`: a letter
followed by word characters. -/
def matchPropertyName : List Char → Bool
  | [] => false
  | c :: cs => isLetterChar c && cs.all isWordChar

/-- `ispropertynamevalid`: `name and re.match("[A-Za-z][_a-zA-Z0-9]*$", name)`. -/
def ispropertynamevalid (s : String) : Bool :=
  (!s.isEmpty) && dollarMatch matchPropertyName s.toList

/-- Character classes distinguished by `VALID_NS_NAMES`; every other
character behaves identically for that regex, so matching is performed on the
classified string. -/
inductive CC where
  | letter
  | digit
  | uscore
  | dot
  | other
deriving DecidableEq

/-- Classify one character for `VALID_NS_NAMES` matching. -/
def cclass (c : Char) : CC :=
  if c.isAlpha then CC.letter
  else if c.isDigit then CC.digit
  else if c = '_' then CC.uscore
  else if c = '.' then CC.dot
  else CC.other

/-- The class `[_a-zA-Z0-9]` of `VALID_NS_NAMES`, as a regular expression. -/
def wordRE : RegularExpression CC :=
  RegularExpression.char CC.letter + RegularExpression.char CC.digit +
    RegularExpression.char CC.uscore

/-- The first group `([A-Za-z][_a-zA-Z0-9]*)` of `VALID_NS_NAMES`. -/
def firstSegRE : RegularExpression CC :=
  RegularExpression.char CC.letter * wordRE.star

/-- The repeated group `(\.?[_A-Za-z][_a-zA-Z0-9]*)` of `VALID_NS_NAMES`:
an optional dot, then `[_A-Za-z]`, then `[_a-zA-Z0-9]*`. -/
def groupRE : RegularExpression CC :=
  (1 + RegularExpression.char CC.dot) *
    ((RegularExpression.char CC.uscore + RegularExpression.char CC.letter) * wordRE.star)

/-- The whole pattern
`VALID_NS_NAMES = "([A-Za-z][_a-zA-Z0-9]*)(\.?[_A-Za-z][_a-zA-Z0-9]*)*$"`. -/
def VALID_NS_NAMES : RegularExpression CC := firstSegRE * groupRE.star

/-- `isnsnamevalid`: `name and (name == DEFAULT_NS or re.match(VALID_NS_NAMES, name))`. -/
def isnsnamevalid (s : String) : Bool :=
  (!s.isEmpty) &&
    (s == DEFAULT_NS ||
      dollarMatch (fun l => VALID_NS_NAMES.rmatch (l.map cclass)) s.toList)

example : ispropertynamevalid "foo" = true := by decide
example : ispropertynamevalid "!bad" = false := by decide
example : ispropertynamevalid "_x" = false := by decide
example : isnsnamevalid "a.b.c" = true := by decide
example : isnsnamevalid "__DEFAULT" = true := by decide
example : isnsnamevalid "_a" = false := by decide
example : isnsnamevalid "a._b" = true := by decide
example : isnsnamevalid "a.9b" = false := by decide
example : isnsnamevalid "" = false := by decide
example : ispropertynamevalid "foo\n" = true := by decide
example : isnsnamevalid "a.b\n" = true := by decide
example : isnsnamevalid "a.b\n\n" = false := by decide

/-- A caller-supplied validate/callback hook: takes the property name and the
value, returns `some e` when it raises the exception `e`.  Return values of
hooks are ignored by the source, so none is modelled. -/
def Hook : Type := String → PyVal → Option PyExc

/-- `ConfigPropertyRecordExt`: name, value, has-value flag, and the optional
callback and validation hooks.  (The base `ConfigPropertyRecord` is this
record with both hooks `none`; an `Option` hook being `some` corresponds to
the Python attribute being a callable, which is what the
`self.validate and callable(self.validate)` guard tests.) -/
structure ConfigPropertyRecordExt where
  _name : String
  _value : PyVal
  _hasvalue : Bool
  callback : Option Hook
  validate : Option Hook

/-- The `value` property getter (`ConfigPropertyRecord.value`): raises
`ConfigPropertyValueNotSet(self.name)` when `_hasvalue` is false. -/
def ConfigPropertyRecordExt.valueGet (r : ConfigPropertyRecordExt) : Except PyExc PyVal :=
  if r._hasvalue then Except.ok r._value
  else Except.error (PyExc.configPropertyValueNotSet r._name)

/-- The `value` property setter of `ConfigPropertyRecordExt`: run the
validation hook first (a raise propagates and nothing is stored), then store
the value and set `_hasvalue`, then run the callback hook (a raise propagates
but the value stays committed).  Returns the post-state and the propagated
exception, if any. -/
def ConfigPropertyRecordExt.setValue (r : ConfigPropertyRecordExt) (v : PyVal) :
    ConfigPropertyRecordExt × Option PyExc :=
  match r.validate with
  | some f =>
    match f r._name v with
    | some e => (r, some e)
    | Option.none =>
      let r' : ConfigPropertyRecordExt := { r with _value := v, _hasvalue := true }
      match r'.callback with
      | some g => (r', g r'._name r'._value)
      | Option.none => (r', Option.none)
  | Option.none =>
    let r' : ConfigPropertyRecordExt := { r with _value := v, _hasvalue := true }
    match r'.callback with
    | some g => (r', g r'._name r'._value)
    | Option.none => (r', Option.none)

/-- The keyword arguments accepted by `ConfigPropertyRecordExt.__init__`
(`value`, `callback`, `validate`; `value` absent means the record starts
unset). -/
structure RecordKwargs where
  value : Option PyVal
  callback : Option Hook
  validate : Option Hook

/-- Keyword arguments with none of the three keys present. -/
def noKwargs : RecordKwargs := RecordKwargs.mk Option.none Option.none Option.none

/-- Keyword arguments carrying only `value=v`. -/
def valueKwargs (v : PyVal) : RecordKwargs := RecordKwargs.mk (some v) Option.none Option.none

/-- `config_property_record_factory = ConfigPropertyRecordExt`: capture the
hooks, then initialise the base record (`_value`/`_hasvalue` from the `value`
keyword).  Construction never validates the name and never runs hooks. -/
def config_property_record_factory (name : String) (kw : RecordKwargs) :
    ConfigPropertyRecordExt :=
  ConfigPropertyRecordExt.mk name (kw.value.getD PyVal.none) kw.value.isSome kw.callback kw.validate

/-- An attribute in a `ConfigNamespace`'s `__dict__`: the namespace stores its
own `name` (a plain string) in the same dictionary as the property records. -/
inductive NsAttr where
  | str (s : String)
  | record (r : ConfigPropertyRecordExt)

/-- `ConfigNamespace`: its state is exactly its instance `__dict__`. -/
structure ConfigNamespace where
  attrs : List (String × NsAttr)

/-- One entry of the batch taken by `add_properties`: either a dict of keyword
arguments (`isinstance(defn, dict)`) or a bare value. -/
inductive PropDefn where
  | defnDict (kw : RecordKwargs)
  | bare (v : PyVal)

/-- `ConfigNamespace.has_property`: raise `ConfigPropertyBadName` on an
ungrammatical name, else test membership in `self.__dict__`. -/
def ConfigNamespace.has_property (ns : ConfigNamespace) (name : String) :
    Except PyExc Bool :=
  if ispropertynamevalid name then Except.ok (dhaskey ns.attrs name)
  else Except.error (PyExc.configPropertyBadName name)

/-- `ConfigNamespace.add_property`: validate the name, reject duplicates,
build a record with the factory, store it in `__dict__` and return
`getattr(self, name)`.  Returns the post-state paired with the result. -/
def ConfigNamespace.add_property (ns : ConfigNamespace) (name : String) (kw : RecordKwargs) :
    ConfigNamespace × Except PyExc NsAttr :=
  if ispropertynamevalid name then
    if dhaskey ns.attrs name then
      (ns, Except.error (PyExc.configNamespaceDuplicateProperty name))
    else
      let prop := config_property_record_factory name kw
      let attrs' := dinsert ns.attrs name (NsAttr.record prop)
      match dlookup attrs' name with
      | some a => (ConfigNamespace.mk attrs', Except.ok a)
      | Option.none => (ConfigNamespace.mk attrs', Except.error PyExc.attributeError)
  else (ns, Except.error (PyExc.configPropertyBadName name))

/-- The per-entry loop of `ConfigNamespace.add_properties`: validate each name
(grammar, then duplicate against `self.__dict__`) and construct its record,
accumulating into the local `props` dict; the first failure aborts the whole
batch.  `self.__dict__` is not touched here. -/
def buildProps (attrs : List (String × NsAttr)) :
    List (String × PropDefn) → List (String × ConfigPropertyRecordExt) →
    Except PyExc (List (String × ConfigPropertyRecordExt))
  | [], props => Except.ok props
  | (name, d) :: rest, props =>
    if ispropertynamevalid name then
      if dhaskey attrs name then
        Except.error (PyExc.configNamespaceDuplicateProperty name)
      else
        let r := match d with
          | PropDefn.defnDict kw => config_property_record_factory name kw
          | PropDefn.bare v => config_property_record_factory name (valueKwargs v)
        buildProps attrs rest (dinsert props name r)
    else Except.error (PyExc.configPropertyBadName name)

/-- `ConfigNamespace.add_properties`: construct all records first "so if one
fails, they all fail", then commit them with a single `self.__dict__.update`
and return the mapping of added attributes.  (The `properties={...}` wrapper
form is unwrapped by the caller; this takes the properties mapping itself.) -/
def ConfigNamespace.add_properties (ns : ConfigNamespace)
    (properties : List (String × PropDefn)) :
    ConfigNamespace × Except PyExc (List (String × NsAttr)) :=
  match buildProps ns.attrs properties [] with
  | Except.error e => (ns, Except.error e)
  | Except.ok props =>
    if props.isEmpty then (ns, Except.ok [])
    else
      let attrs' := dupdate ns.attrs (props.map (fun nr => (nr.1, NsAttr.record nr.2)))
      (ConfigNamespace.mk attrs',
        Except.ok (props.map (fun nr => (nr.1, NsAttr.record nr.2))))

/-- `ConfigNamespace.__init__`: validate the namespace name (raising
`ConfigNamespaceBadName`), store it as the `name` attribute, and batch-add the
initial properties when keyword arguments were given. -/
def ConfigNamespace.init (nspc : String) (kwargs : List (String × PropDefn)) :
    Except PyExc ConfigNamespace :=
  if isnsnamevalid nspc then
    let ns0 := ConfigNamespace.mk [("name", NsAttr.str nspc)]
    if kwargs.isEmpty then Except.ok ns0
    else
      match ns0.add_properties kwargs with
      | (ns1, Except.ok _) => Except.ok ns1
      | (_, Except.error e) => Except.error e
  else Except.error (PyExc.configNamespaceBadName nspc)

/-- The characters of `nspc[0:i]` where `i = nspc.rfind('.')`, when a dot
exists (`i > -1`): everything before the last dot. -/
def beforeLastDot : List Char → Option (List Char)
  | [] => Option.none
  | c :: cs =>
    match beforeLastDot cs with
    | some pre => some (c :: pre)
    | Option.none => if c = NS_SEP then some [] else Option.none

theorem beforeLastDot_length :
    ∀ (l pre : List Char), beforeLastDot l = some pre → pre.length < l.length := by
  intro l
  induction l with
  | nil => intro pre h; simp [beforeLastDot] at h
  | cons c cs ih =>
    intro pre h
    simp only [beforeLastDot] at h
    cases hb : beforeLastDot cs with
    | some p =>
      rw [hb] at h
      cases h
      have := ih p hb
      simp only [List.length_cons]
      omega
    | none =>
      rw [hb] at h
      by_cases hc : c = NS_SEP
      · simp [hc] at h
        cases h
        simp
      · simp [hc] at h

/-- `ConfigurationManager`: version and the ordered namespace dictionary. -/
structure ConfigurationManager where
  version : Nat
  namespaces : List (String × ConfigNamespace)

/-- `ConfigurationManager._parents`, with an explicit recursion bound: the
Python recursion strips the tail after the last `'.'` each round, so any
fuel exceeding the string length suffices (see `parentsFuel_eq`). -/
def ConfigurationManager.parentsFuel (m : ConfigurationManager) :
    Nat → List Char → List String
  | 0, _ => []
  | fuel + 1, l =>
    let nspc := String.mk l
    let rtn := if dhaskey m.namespaces nspc then [nspc] else []
    match beforeLastDot l with
    | some pre => rtn ++ m.parentsFuel fuel pre
    | Option.none => rtn

/-- `ConfigurationManager._parents` on a string argument. -/
def ConfigurationManager.parents (m : ConfigurationManager) (nspc : String) : List String :=
  m.parentsFuel (nspc.toList.length + 1) nspc.toList

/-- `ConfigurationManager.parent_namespaces`: `[*self._parents(nspc), DEFAULT_NS]`. -/
def ConfigurationManager.parent_namespaces (m : ConfigurationManager) (nspc : String) :
    List String :=
  m.parents nspc ++ [DEFAULT_NS]

/-- `ConfigurationManager.has_namespace`: validate the name, then membership. -/
def ConfigurationManager.has_namespace (m : ConfigurationManager) (nspc : String) :
    Except PyExc Bool :=
  if isnsnamevalid nspc then Except.ok (dhaskey m.namespaces nspc)
  else Except.error (PyExc.configNamespaceBadName nspc)

/-- `ConfigurationManager.add_namespace`: validate the name, reject
duplicates, construct the namespace and store it, returning
`self.namespaces[nspc]`. -/
def ConfigurationManager.add_namespace (m : ConfigurationManager) (nspc : String)
    (kwargs : List (String × PropDefn)) :
    ConfigurationManager × Except PyExc ConfigNamespace :=
  if isnsnamevalid nspc then
    if dhaskey m.namespaces nspc then
      (m, Except.error (PyExc.configManagerDuplicateNamespace nspc))
    else
      match ConfigNamespace.init nspc kwargs with
      | Except.error e => (m, Except.error e)
      | Except.ok ns =>
        let m' := ConfigurationManager.mk m.version (dinsert m.namespaces nspc ns)
        match dlookup m'.namespaces nspc with
        | some n => (m', Except.ok n)
        | Option.none => (m', Except.error PyExc.keyError)
  else (m, Except.error (PyExc.configNamespaceBadName nspc))

/-- `ConfigurationManager.get_namespace`: validate the name; return the
namespace when present; otherwise with `ornearest` walk to
`parent_namespaces(nspc)[0]`, else raise `ConfigManagerMissingNamespace`. -/
def ConfigurationManager.get_namespace (m : ConfigurationManager) (nspc : String)
    (ornearest : Bool) : Except PyExc ConfigNamespace :=
  if isnsnamevalid nspc then
    match dlookup m.namespaces nspc with
    | some ns => Except.ok ns
    | Option.none =>
      if ornearest then
        match m.parent_namespaces nspc with
        | [] => Except.error PyExc.keyError
        | n0 :: _ =>
          match dlookup m.namespaces n0 with
          | some ns => Except.ok ns
          | Option.none => Except.error PyExc.keyError
      else Except.error (PyExc.configManagerMissingNamespace nspc)
  else Except.error (PyExc.configNamespaceBadName nspc)

/-- The namespace-building loop of `ConfigurationManager.__init__`. -/
def buildNamespaces :
    List (String × List (String × PropDefn)) → List (String × ConfigNamespace) →
    Except PyExc (List (String × ConfigNamespace))
  | [], acc => Except.ok acc
  | (name, d) :: rest, acc =>
    match ConfigNamespace.init name d with
    | Except.error e => Except.error e
    | Except.ok ns => buildNamespaces rest (dinsert acc name ns)

/-- `ConfigurationManager.__init__`: reject unknown versions
(`version not in [1]`), build the supplied namespaces, then auto-create the
default namespace when absent. -/
def ConfigurationManager.init (version : Nat)
    (namespaces : List (String × List (String × PropDefn))) :
    Except PyExc ConfigurationManager :=
  if version = 1 then
    match buildNamespaces namespaces [] with
    | Except.error e => Except.error e
    | Except.ok nspc =>
      if dhaskey nspc DEFAULT_NS then Except.ok (ConfigurationManager.mk version nspc)
      else
        match ConfigNamespace.init DEFAULT_NS [] with
        | Except.error e => Except.error e
        | Except.ok d =>
          Except.ok (ConfigurationManager.mk version (dinsert nspc DEFAULT_NS d))
  else Except.error PyExc.configManagerBadVersion

/-- `getConfig` on the explicit-name path (`nspc` given and truthy; the
`nspc=None` path derives the name by stack introspection and is exercised by
callers passing that module name explicitly).  The singleton manager is
threaded as explicit state; mutating the namespace returned by
`get_namespace` writes through to the registry, as Python aliasing does. -/
def getConfig (m : ConfigurationManager) (nspc : String) (ornearest : Bool)
    (props : List (String × PropDefn)) :
    ConfigurationManager × Except PyExc ConfigNamespace :=
  match m.has_namespace nspc with
  | Except.error e => (m, Except.error e)
  | Except.ok true =>
    match m.get_namespace nspc true with
    | Except.error e => (m, Except.error e)
    | Except.ok ns =>
      if props.isEmpty then (m, Except.ok ns)
      else
        match ns.add_properties props with
        | (_, Except.error e) => (m, Except.error e)
        | (ns', Except.ok _) =>
          (ConfigurationManager.mk m.version (dinsert m.namespaces nspc ns'),
            Except.ok ns')
  | Except.ok false => m.add_namespace nspc props

/-- The split performed by `p = fqname.rfind(NS_SEP)` followed by
`fqname[0:p]` / `fqname[p+1:]`: the characters before and after the last dot,
or `none` when there is no dot (`p < 0`). -/
def splitAtLastDot : List Char → Option (List Char × List Char)
  | [] => Option.none
  | c :: cs =>
    match splitAtLastDot cs with
    | some (pre, post) => some (c :: pre, post)
    | Option.none => if c = NS_SEP then some ([], cs) else Option.none

/-- The `elif ornearest:` loop of `getConfigRecord`: fetch each parent
namespace with `getConfig(nss, False)` and return its `propname` attribute at
the first hit; after an exhausted loop `ConfigPropertyNotFound` is raised. -/
def searchParents (m : ConfigurationManager) (propname : String) :
    List String → String → ConfigurationManager × Except PyExc NsAttr
  | [], fq => (m, Except.error (PyExc.configPropertyNotFound fq))
  | nss :: rest, fq =>
    match getConfig m nss false [] with
    | (m1, Except.error e) => (m1, Except.error e)
    | (m1, Except.ok nsp) =>
      match nsp.has_property propname with
      | Except.error e => (m1, Except.error e)
      | Except.ok true =>
        match dlookup nsp.attrs propname with
        | some a => (m1, Except.ok a)
        | Option.none => (m1, Except.error PyExc.attributeError)
      | Except.ok false => searchParents m1 propname rest fq

/-- `getConfigRecord`: reject an empty name, split at the last dot (falling
back to the calling module's name, supplied here explicitly, when there is no
dot), validate both parts, fetch the namespace through `getConfig`, and look
the property up there and — with `ornearest` — along the full parent chain,
raising `ConfigPropertyNotFound` when nothing matches. -/
def getConfigRecord (m : ConfigurationManager) (callerModule : String)
    (fqname : String) (ornearest : Bool) :
    ConfigurationManager × Except PyExc NsAttr :=
  if fqname = "" then (m, Except.error (PyExc.configPropertyBadName fqname))
  else
    let parts :=
      match splitAtLastDot fqname.toList with
      | some pp => (String.mk pp.1, String.mk pp.2)
      | Option.none => (callerModule, fqname)
    let nspc := parts.1
    let propname := parts.2
    if isnsnamevalid nspc then
      if ispropertynamevalid propname then
        match getConfig m nspc ornearest [] with
        | (m1, Except.error e) => (m1, Except.error e)
        | (m1, Except.ok ns) =>
          match ns.has_property propname with
          | Except.error e => (m1, Except.error e)
          | Except.ok true =>
            match dlookup ns.attrs propname with
            | some a => (m1, Except.ok a)
            | Option.none => (m1, Except.error PyExc.attributeError)
          | Except.ok false =>
            if ornearest then searchParents m1 propname (m1.parent_namespaces nspc) fqname
            else (m1, Except.error (PyExc.configPropertyNotFound fqname))
      else (m, Except.error (PyExc.configPropertyBadName propname))
    else (m, Except.error (PyExc.configNamespaceBadName nspc))

/-- The argument alias of `AppConfig`: `argalias` may be a plain value or a
zero-argument callable (`if callable(self.argalias): val = self.argalias()`).
Unconfigured (`None`) is the surrounding `Option`. -/
inductive ArgAlias where
  | lit (v : PyVal)
  | fn (f : Unit → PyVal)

/-- A per-source formatting function `(propertyName, rawValue) -> value`. -/
def Formatter : Type := String → PyVal → PyVal

/-- The configparser-compatible collaborator: `has_option(*keys)` and
`get(*keys)`. -/
structure CfgParser where
  has_option : List String → Bool
  get : List String → PyVal

/-- One entry of `dictalias`: `isinstance(keys, list)` distinguishes a key
path from a single bare key. -/
inductive DictKeys where
  | single (k : String)
  | path (ks : List String)

/-- The key list denoted by one `dictalias` entry. -/
def DictKeys.keys : DictKeys → List String
  | DictKeys.single k => [k]
  | DictKeys.path ks => ks

/-- `AppConfig`: the destination record plus the per-source alias and
formatter state set up by `__init__` (aliases default to `None`/`[]`,
`has_default` records whether `default_value` was passed at all). -/
structure AppConfig where
  record : ConfigPropertyRecordExt
  argalias : Option ArgAlias
  argformat : Option Formatter
  envalias : List String
  envformat : Option Formatter
  cfgparser : Option CfgParser
  cfgalias : List (List String)
  cfgformat : Option Formatter
  dictconfig : Option PyVal
  dictalias : List DictKeys
  dictformat : Option Formatter
  default_value : PyVal
  has_default : Bool

/-- Outcome of one source probe (`_argalias`, `_envalias`, ...): the
post-state, the exception propagating out of the probe (if the record's
setter raised), and the probe's boolean return value. -/
structure ProbeResult where
  cfg : AppConfig
  exc : Option PyExc
  fired : Bool

/-- `AppConfig._argalias`: when configured, obtain the value (calling it when
callable), apply `argformat` when set, assign it to the record and report
success. -/
def AppConfig._argalias (c : AppConfig) : ProbeResult :=
  match c.argalias with
  | Option.none => ProbeResult.mk c Option.none false
  | some a =>
    let val := match a with
      | ArgAlias.lit v => v
      | ArgAlias.fn f => f ()
    let val := match c.argformat with
      | some fmt => fmt c.record._name val
      | Option.none => val
    let re := c.record.setValue val
    ProbeResult.mk { c with record := re.1 } re.2 true

/-- The `for envalias in self.envalias` loop of `_envalias`: the first alias
present in the environment wins and the loop breaks. -/
def envLoop (c : AppConfig) (env : List (String × String)) :
    List String → ProbeResult
  | [] => ProbeResult.mk c Option.none false
  | a :: rest =>
    match dlookup env a with
    | some s =>
      let val := PyVal.str s
      let val := match c.envformat with
        | some fmt => fmt c.record._name val
        | Option.none => val
      let re := c.record.setValue val
      ProbeResult.mk { c with record := re.1 } re.2 true
    | Option.none => envLoop c env rest

/-- `AppConfig._envalias` over an explicit process environment. -/
def AppConfig._envalias (c : AppConfig) (env : List (String × String)) : ProbeResult :=
  envLoop c env c.envalias

/-- The `for keys in self.cfgalias` loop of `_cfgalias`. -/
def cfgLoop (c : AppConfig) (p : CfgParser) : List (List String) → ProbeResult
  | [] => ProbeResult.mk c Option.none false
  | keys :: rest =>
    if p.has_option keys then
      let val := p.get keys
      let val := match c.cfgformat with
        | some fmt => fmt c.record._name val
        | Option.none => val
      let re := c.record.setValue val
      ProbeResult.mk { c with record := re.1 } re.2 true
    else cfgLoop c p rest

/-- `AppConfig._cfgalias`: nothing happens unless a parser is configured. -/
def AppConfig._cfgalias (c : AppConfig) : ProbeResult :=
  match c.cfgparser with
  | Option.none => ProbeResult.mk c Option.none false
  | some p => cfgLoop c p c.cfgalias

/-- `AppConfig._getdictentry`: walk the nested dictionary along `keys`.  A
missing key (`KeyError`) yields `(False, None)`; indexing a non-dictionary
value raises `TypeError`, which the source does not catch; reaching the end
yields `(True, value)` — even when the value is `None`. -/
def AppConfig._getdictentry (d : PyVal) : List String → Except PyExc (Bool × PyVal)
  | [] => Except.ok (true, d)
  | k :: ks =>
    match d with
    | PyVal.dict es =>
      match dlookup es k with
      | some v => AppConfig._getdictentry v ks
      | Option.none => Except.ok (false, PyVal.none)
    | _ => Except.error PyExc.typeError

/-- The `for keys in self.dictalias` loop of `_dictalias`: probe each alias
with `_getdictentry` and commit the first hit. -/
def dictLoop (c : AppConfig) (d : PyVal) : List DictKeys → ProbeResult
  | [] => ProbeResult.mk c Option.none false
  | keys :: rest =>
    match AppConfig._getdictentry d keys.keys with
    | Except.error e => ProbeResult.mk c (some e) false
    | Except.ok (true, v) =>
      let val := match c.dictformat with
        | some fmt => fmt c.record._name v
        | Option.none => v
      let re := c.record.setValue val
      ProbeResult.mk { c with record := re.1 } re.2 true
    | Except.ok (false, _) => dictLoop c d rest

/-- `AppConfig._dictalias`: nothing happens unless `dictconfig` is set. -/
def AppConfig._dictalias (c : AppConfig) : ProbeResult :=
  match c.dictconfig with
  | Option.none => ProbeResult.mk c Option.none false
  | some d => dictLoop c d c.dictalias

/-- `AppConfig._default`: fires exactly when a default was supplied at
construction, whatever its value. -/
def AppConfig._default (c : AppConfig) : ProbeResult :=
  if c.has_default then
    let re := c.record.setValue c.default_value
    ProbeResult.mk { c with record := re.1 } re.2 true
  else ProbeResult.mk c Option.none false

/-- The `for res in [...]` loop of `resolve()`: run the probes in order and
break at the first that returns true (or propagate its exception). -/
def probeSeq : List (AppConfig → ProbeResult) → AppConfig → ProbeResult
  | [], c => ProbeResult.mk c Option.none false
  | p :: ps, c =>
    let r := p c
    match r.exc with
    | some e => ProbeResult.mk r.cfg (some e) r.fired
    | Option.none => if r.fired then r else probeSeq ps r.cfg

/-- `AppConfig.resolve`: try argument, environment, config-parser, dictionary
and default in that fixed order, stopping at the first hit, then
`return self.record.value` (which raises `ConfigPropertyValueNotSet` if the
record is still unset). -/
def AppConfig.resolve (c : AppConfig) (env : List (String × String)) :
    AppConfig × Except PyExc PyVal :=
  let r := probeSeq
    [AppConfig._argalias, fun c => AppConfig._envalias c env,
      AppConfig._cfgalias, AppConfig._dictalias, AppConfig._default] c
  match r.exc with
  | some e => (r.cfg, Except.error e)
  | Option.none =>
    match r.cfg.record.valueGet with
    | Except.ok v => (r.cfg, Except.ok v)
    | Except.error e => (r.cfg, Except.error e)

/-- A freshly built namespace holding only its own `name` attribute. -/
def nsNamed (n : String) : ConfigNamespace :=
  ConfigNamespace.mk [("name", NsAttr.str n)]

/-- A destination property record named `foo`, still unset, with no hooks. -/
def rec0 : ConfigPropertyRecordExt :=
  ConfigPropertyRecordExt.mk "foo" PyVal.none false Option.none Option.none

/-- Argument-source formatter used in the resolution scenarios. -/
def argfmt : Formatter := fun _ v =>
  match v with
  | PyVal.int n => PyVal.int (n + 10)
  | _ => v

/-- Environment-source formatter used in the resolution scenarios. -/
def envfmt : Formatter := fun _ v =>
  match v with
  | PyVal.str s => PyVal.str (s ++ "!")
  | _ => v

/-- A configparser collaborator exposing exactly the option `("sec", "foo")`. -/
def parser1 : CfgParser :=
  CfgParser.mk (fun ks => ks == [["sec", "foo"]].head!)
    (fun ks => if ks == [["sec", "foo"]].head! then PyVal.str "3" else PyVal.none)

/-- The nested dictionary collaborator of the priority scenario. -/
def dict1 : PyVal := PyVal.dict [("foo", PyVal.int 4)]

/-- Scenario environment: `FOO=2`. -/
def envT : List (String × String) := [("FOO", "2")]

/-- All five sources configured, each supplying a different value. -/
def cAll : AppConfig :=
  AppConfig.mk rec0 (some (ArgAlias.lit (PyVal.int 1))) (some argfmt)
    ["FOO"] (some envfmt) (some parser1) [["sec", "foo"]] Option.none
    (some dict1) [DictKeys.single "foo"] Option.none (PyVal.int 5) true

/-- `cAll` with the argument source unconfigured. -/
def cNoArg : AppConfig := { cAll with argalias := Option.none }

/-- `cNoArg` with the environment source unconfigured. -/
def cNoArgEnv : AppConfig := { cNoArg with envalias := [] }

/-- `cNoArgEnv` with the config-parser source unconfigured. -/
def cNoArgEnvCfg : AppConfig := { cNoArgEnv with cfgparser := Option.none }

/-- `cNoArgEnvCfg` with the dictionary source unconfigured. -/
def cNoArgEnvCfgDict : AppConfig := { cNoArgEnvCfg with dictconfig := Option.none }

/-- No source configured at all (and no default). -/
def cNoSources : AppConfig := { cNoArgEnvCfgDict with has_default := false }

/-- Claim C1: `AppConfig.resolve()` tries the configured sources in the fixed
priority order argument, environment, config-parser, dictionary,
static-default, stopping at the first source that yields a value and
committing that (formatted) value into the destination property: with all
sources configured it commits the (argformat-formatted) argument value;
removing the argument source falls through to the (formatted) environment
value, then to the config-parser value, then to the dictionary value, then to
the default; with no source configured and no default the destination's state
is unchanged — an unset property stays unset. -/
theorem claim_C1 :
    ((AppConfig.resolve cAll envT).1.record._value = PyVal.int 11 ∧
      (AppConfig.resolve cAll envT).1.record._hasvalue = true ∧
      (AppConfig.resolve cAll envT).2 = Except.ok (PyVal.int 11)) ∧
    ((AppConfig.resolve cNoArg envT).1.record._value = PyVal.str "2!" ∧
      (AppConfig.resolve cNoArg envT).2 = Except.ok (PyVal.str "2!")) ∧
    ((AppConfig.resolve cNoArgEnv envT).1.record._value = PyVal.str "3" ∧
      (AppConfig.resolve cNoArgEnv envT).2 = Except.ok (PyVal.str "3")) ∧
    ((AppConfig.resolve cNoArgEnvCfg envT).1.record._value = PyVal.int 4 ∧
      (AppConfig.resolve cNoArgEnvCfg envT).2 = Except.ok (PyVal.int 4)) ∧
    ((AppConfig.resolve cNoArgEnvCfgDict envT).1.record._value = PyVal.int 5 ∧
      (AppConfig.resolve cNoArgEnvCfgDict envT).2 = Except.ok (PyVal.int 5)) ∧
    ((AppConfig.resolve cNoSources envT).1 = cNoSources ∧
      (AppConfig.resolve cNoSources envT).1.record._hasvalue = false) :=
  ⟨⟨rfl, rfl, rfl⟩, ⟨rfl, rfl⟩, ⟨rfl, rfl⟩, ⟨rfl, rfl⟩, ⟨rfl, rfl⟩, ⟨rfl, rfl⟩⟩

/-- Claim C3: for every `ConfigPropertyRecordExt` with a validate hook, if
assigning a value makes the validator raise, the exception propagates to the
caller and the record is returned exactly as it was — stored value and
has-value flag unchanged. -/
theorem claim_C3 (r : ConfigPropertyRecordExt) (v : PyVal) (f : Hook) (e : PyExc)
    (hval : r.validate = some f) (hraise : f r._name v = some e) :
    r.setValue v = (r, some e) := by
  rw [ConfigPropertyRecordExt.setValue, hval]
  simp only [hraise]

/-- The validator of the C3 scenario: accepts only integers in `1..9`. -/
def c3validator : Hook := fun _ v =>
  match v with
  | PyVal.int n => if 0 < n ∧ n < 10 then Option.none else some (PyExc.userError "range")
  | _ => some (PyExc.userError "type")

/-- A record holding the previously accepted value `V1 = 1`, whose validator
rejects any value outside `1..9`. -/
def c3rec : ConfigPropertyRecordExt :=
  ConfigPropertyRecordExt.mk "foo" (PyVal.int 1) true Option.none (some c3validator)

/-- Witness for claim C3: assigning `V2 = 42` to a record that successfully
holds `V1 = 1` propagates the validator's exception and leaves the record —
value `1`, has-value true — untouched. -/
theorem claim_C3_witness :
    c3rec.setValue (PyVal.int 42) = (c3rec, some (PyExc.userError "range")) ∧
    c3rec._value = PyVal.int 1 ∧ c3rec._hasvalue = true :=
  ⟨claim_C3 c3rec (PyVal.int 42) c3validator (PyExc.userError "range") rfl rfl, rfl, rfl⟩

/-- The empty namespace of the C4 batch scenario. -/
def c4ns : ConfigNamespace := nsNamed "tst"

/-- The C4 batch: a well-formed entry followed by the invalid name `!bad`. -/
def c4batch : List (String × PropDefn) :=
  [("ok", PropDefn.defnDict (valueKwargs (PyVal.int 1))), ("!bad", PropDefn.bare (PyVal.int 2))]

/-- Claim C4: `add_properties` is all-or-nothing — whenever the batch fails,
the namespace is unchanged (records are only committed by the single update
after the whole batch validated) — and concretely the batch
`{"ok": {"value": 1}, "!bad": 2}` on an empty namespace raises
`ConfigPropertyBadName` and adds nothing. -/
theorem claim_C4 :
    (∀ (ns : ConfigNamespace) (properties : List (String × PropDefn)) (e : PyExc),
        (ns.add_properties properties).2 = Except.error e →
        (ns.add_properties properties).1 = ns) ∧
    ConfigNamespace.init "tst" [] = Except.ok c4ns ∧
    c4ns.add_properties c4batch = (c4ns, Except.error (PyExc.configPropertyBadName "!bad")) := by
  refine ⟨?_, rfl, rfl⟩
  intro ns properties e h
  rw [ConfigNamespace.add_properties] at h ⊢
  cases hb : buildProps ns.attrs properties [] with
  | error e' => simp
  | ok props =>
    rw [hb] at h
    by_cases hp : props.isEmpty <;> simp [hp] at h

/-- Witness for claim C4: the failing scenario batch leaves the namespace
with zero properties added. -/
theorem claim_C4_witness : (c4ns.add_properties c4batch).1 = c4ns :=
  claim_C4.1 c4ns c4batch (PyExc.configPropertyBadName "!bad") rfl

/-- The namespace of the C10 witness. -/
def c10ns : ConfigNamespace := ConfigNamespace.mk [("name", NsAttr.str "box")]

/-- Claim C10: on every freshly constructed namespace the string `"name"`
behaves as an existing property — `has_property("name")` is true and
`add_property("name", ...)` always raises `DuplicateProperty` — because the
namespace stores its own name in the attribute dictionary holding the
property records. -/
theorem claim_C10 (nspc : String) (ns : ConfigNamespace)
    (h : ConfigNamespace.init nspc [] = Except.ok ns) :
    ns.has_property "name" = Except.ok true ∧
    ∀ kw : RecordKwargs,
      (ns.add_property "name" kw).2 =
        Except.error (PyExc.configNamespaceDuplicateProperty "name") := by
  rw [ConfigNamespace.init] at h
  by_cases hv : isnsnamevalid nspc
  · simp only [hv, if_true, List.isEmpty_nil, if_pos] at h
    cases h
    exact ⟨rfl, fun kw => rfl⟩
  · simp [hv] at h

/-- Witness for claim C10, on the namespace named `box`. -/
theorem claim_C10_witness :
    c10ns.has_property "name" = Except.ok true ∧
    (c10ns.add_property "name" noKwargs).2 =
      Except.error (PyExc.configNamespaceDuplicateProperty "name") :=
  ⟨(claim_C10 "box" c10ns rfl).1, (claim_C10 "box" c10ns rfl).2 noKwargs⟩

/-- Modelled from the spec's words for claim C6: a key-path resolves exactly
when every key in the chain resolves in the nested mapping, producing the
value found at the end (whatever it is). -/
def pathResolves (d : PyVal) : List String → Option PyVal
  | [] => some d
  | k :: ks =>
    match d with
    | PyVal.dict es =>
      match dlookup es k with
      | some v => pathResolves v ks
      | Option.none => Option.none
    | _ => Option.none

/-- The nested dictionary `{"a": {"b": {"foo": null}}}` of the C6 scenario. -/
def c6dict : PyVal :=
  PyVal.dict [("a", PyVal.dict [("b", PyVal.dict [("foo", PyVal.none)])])]

/-- An `AppConfig` whose only configured source is the dictionary source with
path `["a", "b", "foo"]` over `c6dict`. -/
def c6cfg : AppConfig :=
  AppConfig.mk rec0 Option.none Option.none [] Option.none Option.none []
    Option.none (some c6dict) [DictKeys.path ["a", "b", "foo"]] Option.none
    PyVal.none false

/-- Claim C6: for the dictionary source a configured key-path counts as a hit
exactly when every key in the chain resolves in the nested mapping, whatever
value is found there; concretely, path `["a","b","foo"]` over
`{"a":{"b":{"foo": null}}}` is a hit and `resolve()` commits the null value
(presence, not truthiness, decides the hit). -/
theorem claim_C6 :
    (∀ (d : PyVal) (keys : List String) (v : PyVal),
        AppConfig._getdictentry d keys = Except.ok (true, v) ↔
          pathResolves d keys = some v) ∧
    ((AppConfig.resolve c6cfg []).1.record._value = PyVal.none ∧
      (AppConfig.resolve c6cfg []).1.record._hasvalue = true ∧
      (AppConfig.resolve c6cfg []).2 = Except.ok PyVal.none) := by
  refine ⟨?_, rfl, rfl, rfl⟩
  intro d keys
  induction keys generalizing d with
  | nil =>
    intro v
    simp [AppConfig._getdictentry, pathResolves]
  | cons k ks ih =>
    intro v
    cases d with
    | dict es =>
      rw [AppConfig._getdictentry, pathResolves]
      cases dlookup es k with
      | some w => exact ih w v
      | none => simp
    | none => simp [AppConfig._getdictentry, pathResolves]
    | int n => simp [AppConfig._getdictentry, pathResolves]
    | str s => simp [AppConfig._getdictentry, pathResolves]
    | bool b => simp [AppConfig._getdictentry, pathResolves]

/-- Witness for claim C6: the scenario path is reported as a hit with the
null value by `_getdictentry`. -/
theorem claim_C6_witness :
    AppConfig._getdictentry c6dict ["a", "b", "foo"] = Except.ok (true, PyVal.none) :=
  (claim_C6.1 c6dict ["a", "b", "foo"] PyVal.none).mpr rfl

theorem envLoop_all_miss (c : AppConfig) (env : List (String × String)) :
    ∀ aliases : List String, (∀ a ∈ aliases, dlookup env a = Option.none) →
      envLoop c env aliases = ProbeResult.mk c Option.none false := by
  intro aliases h
  induction aliases with
  | nil => rfl
  | cons a rest ih =>
    rw [envLoop]
    rw [h a (by simp)]
    exact ih (fun x hx => h x (by simp [hx]))

theorem cfgLoop_all_miss (c : AppConfig) (p : CfgParser) :
    ∀ aliases : List (List String), (∀ ks ∈ aliases, p.has_option ks = false) →
      cfgLoop c p aliases = ProbeResult.mk c Option.none false := by
  intro aliases h
  induction aliases with
  | nil => rfl
  | cons ks rest ih =>
    rw [cfgLoop, h ks (by simp)]
    simp only [Bool.false_eq_true, if_false]
    exact ih (fun x hx => h x (by simp [hx]))

theorem dictLoop_all_miss (c : AppConfig) (d : PyVal) :
    ∀ aliases : List DictKeys,
      (∀ al ∈ aliases, AppConfig._getdictentry d al.keys = Except.ok (false, PyVal.none)) →
      dictLoop c d aliases = ProbeResult.mk c Option.none false := by
  intro aliases h
  induction aliases with
  | nil => rfl
  | cons al rest ih =>
    rw [dictLoop, h al (by simp)]
    exact ih (fun x hx => h x (by simp [hx]))

/-- Claim C8: when `resolve()` runs with no configured source yielding a value
(no argument source, no matching environment alias, no matching parser alias,
no matching dictionary path, no default supplied) on a destination property
that has never been assigned, it raises `ConfigPropertyValueNotSet` while
producing its return value, leaving the state untouched. -/
theorem claim_C8 (c : AppConfig) (env : List (String × String))
    (h1 : c.argalias = Option.none)
    (h2 : ∀ a ∈ c.envalias, dlookup env a = Option.none)
    (h3 : ∀ p, c.cfgparser = some p → ∀ ks ∈ c.cfgalias, p.has_option ks = false)
    (h4 : ∀ d, c.dictconfig = some d →
      ∀ al ∈ c.dictalias, AppConfig._getdictentry d al.keys = Except.ok (false, PyVal.none))
    (h5 : c.has_default = false)
    (h6 : c.record._hasvalue = false) :
    AppConfig.resolve c env =
      (c, Except.error (PyExc.configPropertyValueNotSet c.record._name)) := by
  have e1 : AppConfig._argalias c = ProbeResult.mk c Option.none false := by
    rw [AppConfig._argalias, h1]
  have e2 : AppConfig._envalias c env = ProbeResult.mk c Option.none false := by
    rw [AppConfig._envalias]
    exact envLoop_all_miss c env c.envalias h2
  have e3 : AppConfig._cfgalias c = ProbeResult.mk c Option.none false := by
    rw [AppConfig._cfgalias]
    cases hc : c.cfgparser with
    | none => rfl
    | some p => exact cfgLoop_all_miss c p c.cfgalias (h3 p hc)
  have e4 : AppConfig._dictalias c = ProbeResult.mk c Option.none false := by
    rw [AppConfig._dictalias]
    cases hd : c.dictconfig with
    | none => rfl
    | some d => exact dictLoop_all_miss c d c.dictalias (h4 d hd)
  have e5 : AppConfig._default c = ProbeResult.mk c Option.none false := by
    rw [AppConfig._default, h5]
    simp
  rw [AppConfig.resolve]
  simp only [probeSeq, e1, e2, e3, e4, e5, Bool.false_eq_true, if_false]
  simp only [ConfigPropertyRecordExt.valueGet, h6, Bool.false_eq_true, if_false]

/-- The configparser collaborator of the C8 witness: it has no options. -/
def parserMiss : CfgParser := CfgParser.mk (fun _ => false) (fun _ => PyVal.none)

/-- The C8 witness configuration: environment alias, parser alias and
dictionary path are configured but none matches, no argument source, no
default, and the record was never assigned. -/
def c8cfg : AppConfig :=
  AppConfig.mk rec0 Option.none Option.none ["MISSING"] Option.none
    (some parserMiss) [["s", "k"]] Option.none
    (some (PyVal.dict [("x", PyVal.int 1)])) [DictKeys.path ["a", "b"]] Option.none
    PyVal.none false

/-- Witness for claim C8: the concrete all-miss configuration raises
`ConfigPropertyValueNotSet` for the property `foo` and is left unchanged. -/
theorem claim_C8_witness :
    AppConfig.resolve c8cfg [("OTHER", "1")] =
      (c8cfg, Except.error (PyExc.configPropertyValueNotSet "foo")) :=
  claim_C8 c8cfg [("OTHER", "1")] rfl
    (by intro a ha; simp only [c8cfg, List.mem_singleton] at ha; subst ha; rfl)
    (by intro p hp ks hks
        simp only [c8cfg] at hp
        cases hp
        rfl)
    (by intro d hd al hal
        simp only [c8cfg] at hd
        cases hd
        simp only [c8cfg, List.mem_singleton] at hal
        subst hal
        rfl)
    rfl rfl

/-- Modelled from the spec's words for claim C5: the names obtained from the
given name by progressively stripping the last dot-segment, the name itself
first (same recursion bound as `parentsFuel`). -/
def strippedNamesFuel : Nat → List Char → List String
  | 0, _ => []
  | fuel + 1, l =>
    String.mk l ::
      (match beforeLastDot l with
       | some pre => strippedNamesFuel fuel pre
       | Option.none => [])

/-- The stripped-name chain of a namespace name. -/
def strippedNames (nspc : String) : List String :=
  strippedNamesFuel (nspc.toList.length + 1) nspc.toList

theorem parentsFuel_eq_filter (m : ConfigurationManager) :
    ∀ (fuel : Nat) (l : List Char),
      m.parentsFuel fuel l =
        (strippedNamesFuel fuel l).filter (fun n => dhaskey m.namespaces n) := by
  intro fuel
  induction fuel with
  | zero => intro l; rfl
  | succ f ih =>
    intro l
    rw [ConfigurationManager.parentsFuel, strippedNamesFuel]
    cases hb : beforeLastDot l with
    | some pre =>
      simp only [List.filter_cons, ih pre]
      by_cases hk : dhaskey m.namespaces (String.mk l) <;> simp [hk]
    | none =>
      simp only [List.filter_cons]
      by_cases hk : dhaskey m.namespaces (String.mk l) <;> simp [hk]

/-- Registry of the C5 scenario containing only the default namespace. -/
def reg5a : ConfigurationManager :=
  ConfigurationManager.mk 1 [(DEFAULT_NS, nsNamed DEFAULT_NS)]

/-- `reg5a` after adding namespace `a.b`. -/
def reg5b : ConfigurationManager :=
  ConfigurationManager.mk 1 [(DEFAULT_NS, nsNamed DEFAULT_NS), ("a.b", nsNamed "a.b")]

/-- `reg5b` after adding namespace `a.b.c`. -/
def reg5c0 : ConfigurationManager :=
  ConfigurationManager.mk 1
    [(DEFAULT_NS, nsNamed DEFAULT_NS), ("a.b", nsNamed "a.b"), ("a.b.c", nsNamed "a.b.c")]

/-- `reg5c0` after adding namespace `a`. -/
def reg5c1 : ConfigurationManager :=
  ConfigurationManager.mk 1
    [(DEFAULT_NS, nsNamed DEFAULT_NS), ("a.b", nsNamed "a.b"), ("a.b.c", nsNamed "a.b.c"),
      ("a", nsNamed "a")]

/-- `reg5c1` after also adding the sibling namespace `a.x`. -/
def reg5c : ConfigurationManager :=
  ConfigurationManager.mk 1
    [(DEFAULT_NS, nsNamed DEFAULT_NS), ("a.b", nsNamed "a.b"), ("a.b.c", nsNamed "a.b.c"),
      ("a", nsNamed "a"), ("a.x", nsNamed "a.x")]

/-- Claim C5: `parent_namespaces` of a dotted name returns, nearest first,
exactly those names obtained by progressively stripping the last dot-segment
that exist in the registry, always terminated by the default-namespace
sentinel; on the registry holding only the default namespace
`parent_namespaces("a.b.c")` is `[DEFAULT_NS]`, after adding `a.b` it is
`["a.b", DEFAULT_NS]`, and after also adding `a.b.c`, `a` and the sibling
`a.x` it is `["a.b.c", "a.b", "a", DEFAULT_NS]` — in order and without the
sibling. -/
theorem claim_C5 :
    (∀ (m : ConfigurationManager) (nspc : String),
        m.parent_namespaces nspc =
          (strippedNames nspc).filter (fun n => dhaskey m.namespaces n) ++ [DEFAULT_NS]) ∧
    ConfigurationManager.init 1 [] = Except.ok reg5a ∧
    reg5a.parent_namespaces "a.b.c" = [DEFAULT_NS] ∧
    reg5a.add_namespace "a.b" [] = (reg5b, Except.ok (nsNamed "a.b")) ∧
    reg5b.parent_namespaces "a.b.c" = ["a.b", DEFAULT_NS] ∧
    reg5b.add_namespace "a.b.c" [] = (reg5c0, Except.ok (nsNamed "a.b.c")) ∧
    reg5c0.add_namespace "a" [] = (reg5c1, Except.ok (nsNamed "a")) ∧
    reg5c1.add_namespace "a.x" [] = (reg5c, Except.ok (nsNamed "a.x")) ∧
    reg5c.parent_namespaces "a.b.c" = ["a.b.c", "a.b", "a", DEFAULT_NS] := by
  refine ⟨?_, rfl, rfl, rfl, rfl, rfl, rfl, rfl, rfl⟩
  intro m nspc
  rw [ConfigurationManager.parent_namespaces, ConfigurationManager.parents, strippedNames]
  rw [parentsFuel_eq_filter]

/-- The record `foo = 5` of the C2 scenario. -/
def pkgFooRecord : ConfigPropertyRecordExt :=
  ConfigPropertyRecordExt.mk "foo" (PyVal.int 5) true Option.none Option.none

/-- The `pkg` namespace of the C2 scenario, holding `foo = 5`. -/
def pkgNs : ConfigNamespace :=
  ConfigNamespace.mk [("name", NsAttr.str "pkg"), ("foo", NsAttr.record pkgFooRecord)]

/-- The C2 registry: `pkg` exists (with property `foo`), `pkg.mod` does not. -/
def reg2 : ConfigurationManager :=
  ConfigurationManager.mk 1 [("pkg", pkgNs), (DEFAULT_NS, nsNamed DEFAULT_NS)]

/-- Counterexample to claim C2: with namespace `pkg` present and `pkg.mod`
absent, `getConfig("pkg.mod")` with `ornearest = true` does not return the
existing `pkg` namespace — it returns a namespace whose `name` attribute is
`"pkg.mod"`, which differs from `"pkg"`. -/
theorem claim_C2_counterexample :
    ConfigurationManager.init 1 [("pkg", [("foo", PropDefn.bare (PyVal.int 5))])] =
      Except.ok reg2 ∧
    (getConfig reg2 "pkg.mod" true []).2 = Except.ok (nsNamed "pkg.mod") ∧
    dlookup (nsNamed "pkg.mod").attrs "name" = some (NsAttr.str "pkg.mod") ∧
    "pkg.mod" ≠ "pkg" :=
  ⟨rfl, rfl, rfl, by decide⟩

/-- Claim C2 as amended: when the registry contains namespace `pkg` (holding
property `foo`) but no namespace `pkg.mod`, calling `getConfig` with name
`pkg.mod` and `ornearest = true` creates a brand-new empty `pkg.mod`
namespace, registers it, and returns it (its `name` attribute equals
`"pkg.mod"`); the `ornearest` flag is not consulted when an explicit
namespace name is supplied. -/
theorem claim_C2_amended :
    getConfig reg2 "pkg.mod" true [] =
      (ConfigurationManager.mk 1
        [("pkg", pkgNs), (DEFAULT_NS, nsNamed DEFAULT_NS), ("pkg.mod", nsNamed "pkg.mod")],
        Except.ok (nsNamed "pkg.mod")) :=
  rfl

theorem string_toList_append (a b : String) : (a ++ b).toList = a.toList ++ b.toList :=
  String.data_append a b

theorem string_mk_toList (s : String) : String.mk s.toList = s := by
  cases s
  rfl

theorem splitAtLastDot_nodot :
    ∀ l : List Char, (∀ c ∈ l, c ≠ NS_SEP) → splitAtLastDot l = Option.none := by
  intro l h
  induction l with
  | nil => rfl
  | cons c cs ih =>
    rw [splitAtLastDot, ih (fun x hx => h x (List.mem_cons_of_mem c hx))]
    simp [h c (List.mem_cons_self c cs)]

theorem splitAtLastDot_append (post : List Char) (hpost : ∀ c ∈ post, c ≠ NS_SEP) :
    ∀ pre : List Char, splitAtLastDot (pre ++ NS_SEP :: post) = some (pre, post) := by
  intro pre
  induction pre with
  | nil =>
    show splitAtLastDot (NS_SEP :: post) = some ([], post)
    rw [splitAtLastDot, splitAtLastDot_nodot post hpost]
    simp
  | cons c cs ih =>
    show splitAtLastDot (c :: (cs ++ NS_SEP :: post)) = some (c :: cs, post)
    rw [splitAtLastDot, ih]

theorem isLetterChar_ne_sep (c : Char) (h : isLetterChar c = true) : c ≠ NS_SEP := by
  intro hc
  rw [hc] at h
  exact absurd h (by decide)

theorem isWordChar_ne_sep (c : Char) (h : isWordChar c = true) : c ≠ NS_SEP := by
  intro hc
  rw [hc] at h
  exact absurd h (by decide)

theorem matchPropertyName_no_dot (l : List Char) (h : matchPropertyName l = true) :
    ∀ c ∈ l, c ≠ NS_SEP := by
  cases l with
  | nil => simp [matchPropertyName] at h
  | cons c cs =>
    simp only [matchPropertyName, Bool.and_eq_true, List.all_eq_true] at h
    intro x hx
    rcases List.mem_cons.mp hx with he | hm
    · subst he
      exact isLetterChar_ne_sep x h.1
    · exact isWordChar_ne_sep x (h.2 x hm)

theorem prop_no_dot (prop : String) (h : ispropertynamevalid prop = true) :
    ∀ c ∈ prop.toList, c ≠ NS_SEP := by
  rw [ispropertynamevalid, dollarMatch] at h
  simp only [Bool.and_eq_true, Bool.or_eq_true] at h
  rcases h.2 with hm | hm
  · exact matchPropertyName_no_dot prop.toList hm
  · obtain ⟨hlast, hpat⟩ := hm
    have hlast' : prop.toList.getLast? = some '\n' := eq_of_beq hlast
    have hne : prop.toList ≠ [] := by
      intro h0
      rw [h0] at hlast'
      simp at hlast'
    have hg : prop.toList.getLast hne = '\n' := by
      have hq := List.getLast?_eq_getLast prop.toList hne
      rw [hq] at hlast'
      exact Option.some.inj hlast'
    intro x hx
    rw [← List.dropLast_append_getLast hne] at hx
    rcases List.mem_append.mp hx with hm2 | hm2
    · exact matchPropertyName_no_dot _ hpat x hm2
    · simp only [List.mem_singleton] at hm2
      subst hm2
      rw [hg]
      decide

theorem getConfig_preserves (m : ConfigurationManager) (nspc k : String) (b : Bool)
    (X : ConfigNamespace) (h : dlookup m.namespaces k = some X) :
    dlookup (getConfig m nspc b []).1.namespaces k = some X := by
  rw [getConfig, ConfigurationManager.has_namespace]
  by_cases hv : isnsnamevalid nspc
  · simp only [hv, if_true]
    cases hk : dhaskey m.namespaces nspc
    · -- absent: add_namespace with empty kwargs
      rw [ConfigurationManager.add_namespace]
      simp only [hv, if_true, hk, Bool.false_eq_true, if_false, ConfigNamespace.init,
        List.isEmpty_nil]
      have hne : nspc ≠ k := by
        intro he
        subst he
        rw [dhaskey, h] at hk
        simp at hk
      simp only [dlookup_dinsert_self]
      simp only [dlookup_dinsert_ne _ _ _ _ hne]
      exact h
    · -- present: get_namespace, no properties to add
      cases hg : m.get_namespace nspc true with
      | error e => simp only [hg]; exact h
      | ok ns => simp only [hg, List.isEmpty_nil, if_true]; exact h
  · simp only [hv, Bool.false_eq_true, if_false]
    exact h

theorem searchParents_preserves (propname k : String) (X : ConfigNamespace) :
    ∀ (chain : List String) (m : ConfigurationManager) (fq : String),
      dlookup m.namespaces k = some X →
      dlookup (searchParents m propname chain fq).1.namespaces k = some X := by
  intro chain
  induction chain with
  | nil => intro m fq h; exact h
  | cons nss rest ih =>
    intro m fq h
    rw [searchParents]
    have hg := getConfig_preserves m nss k false X h
    cases hgc : getConfig m nss false [] with
    | mk m1 r =>
      rw [hgc] at hg
      cases r with
      | error e => exact hg
      | ok nsp =>
        cases hhp : nsp.has_property propname with
        | error e => simp only [hhp]; exact hg
        | ok bb =>
          cases bb
          · simp only [hhp]
            exact ih m1 fq hg
          · simp only [hhp]
            cases hd : dlookup nsp.attrs propname with
            | some a => simp only [hd]; exact hg
            | none => simp only [hd]; exact hg

theorem getConfig_absent (m : ConfigurationManager) (ns : String)
    (h1 : isnsnamevalid ns = true) (h3 : dhaskey m.namespaces ns = false) :
    getConfig m ns true [] =
      (ConfigurationManager.mk m.version (dinsert m.namespaces ns (nsNamed ns)),
        Except.ok (nsNamed ns)) := by
  rw [getConfig, ConfigurationManager.has_namespace]
  simp only [h1, if_true, h3, Bool.false_eq_true, if_false]
  rw [ConfigurationManager.add_namespace]
  simp only [h1, if_true, h3, Bool.false_eq_true, if_false, ConfigNamespace.init,
    List.isEmpty_nil]
  simp only [nsNamed, dlookup_dinsert_self]

/-- Claim C9: `getConfigRecord` is not a pure lookup — for every qualified
name `ns.prop` with `ns` a grammatically valid namespace name absent from the
registry (and `prop` a valid property name), the call installs a brand-new
empty namespace named `ns` in the registry as a side effect, and that
namespace is still there in the final registry state even when the call ends
by raising `ConfigPropertyNotFound`. -/
theorem claim_C9 (m : ConfigurationManager) (callerModule ns prop : String)
    (h1 : isnsnamevalid ns = true) (h2 : ispropertynamevalid prop = true)
    (h3 : dhaskey m.namespaces ns = false) :
    dlookup (getConfigRecord m callerModule (ns ++ "." ++ prop) true).1.namespaces ns =
      some (nsNamed ns) := by
  have hchars : (ns ++ "." ++ prop).toList = ns.toList ++ NS_SEP :: prop.toList := by
    rw [string_toList_append, string_toList_append]
    simp [NS_SEP]
  have hne : ¬(ns ++ "." ++ prop = "") := by
    intro he
    have h0 : (ns ++ "." ++ prop).toList = ([] : List Char) := by rw [he]; rfl
    rw [hchars] at h0
    simp at h0
  have hsplit : splitAtLastDot ((ns ++ "." ++ prop).toList) = some (ns.toList, prop.toList) := by
    rw [hchars]
    exact splitAtLastDot_append prop.toList (prop_no_dot prop h2) ns.toList
  rw [getConfigRecord]
  simp only [if_neg hne, hsplit, string_mk_toList, h1, h2, if_true]
  rw [getConfig_absent m ns h1 h3]
  simp only [ConfigNamespace.has_property, h2, if_true]
  by_cases hp : prop = "name"
  · subst hp
    simp only [nsNamed, dhaskey, dlookup, eq_self_iff_true, if_true, Option.isSome_some,
      dlookup_dinsert_self]
  · have hp' : ¬("name" = prop) := fun he => hp he.symm
    simp only [nsNamed, dhaskey, dlookup, if_neg hp', Option.isSome_none, Bool.false_eq_true,
      if_false, if_true]
    exact searchParents_preserves prop ns (nsNamed ns) _ _ _ (by
      simp only [nsNamed, dlookup_dinsert_self])

/-- The registry of the C9 witness: only the default namespace. -/
def reg9 : ConfigurationManager :=
  ConfigurationManager.mk 1 [(DEFAULT_NS, nsNamed DEFAULT_NS)]

/-- Witness for claim C9: looking up `pkg.bar` on a registry without `pkg`
raises `ConfigPropertyNotFound` yet leaves a fresh empty `pkg` namespace in
the registry. -/
theorem claim_C9_witness :
    dlookup (getConfigRecord reg9 "mod" ("pkg" ++ "." ++ "bar") true).1.namespaces "pkg" =
      some (nsNamed "pkg") ∧
    (getConfigRecord reg9 "mod" ("pkg" ++ "." ++ "bar") true).2 =
      Except.error (PyExc.configPropertyNotFound "pkg.bar") :=
  ⟨claim_C9 reg9 "mod" "pkg" "bar" (by decide) (by decide) (by decide), rfl⟩

/-- The class `[_a-zA-Z0-9]` as a predicate on character classes. -/
def wordCCB (a : CC) : Bool := a == CC.letter || a == CC.digit || a == CC.uscore

/-- A first regex segment `[A-Za-z][_a-zA-Z0-9]*`, on character classes. -/
def firstSegCCB : List CC → Bool
  | [] => false
  | a :: as => (a == CC.letter) && as.all wordCCB

/-- A later regex segment `[_A-Za-z][_a-zA-Z0-9]*`, on character classes. -/
def laterSegCCB : List CC → Bool
  | [] => false
  | a :: as => (a == CC.letter || a == CC.uscore) && as.all wordCCB

/-- Split a classified string at its dots. -/
def splitDotsCC : List CC → List (List CC)
  | [] => [[]]
  | a :: as =>
    if a = CC.dot then [] :: splitDotsCC as
    else
      match splitDotsCC as with
      | [] => [[a]]
      | seg :: rest => (a :: seg) :: rest

/-- How `splitDotsCC` combines over list append (first segment of the right
part merges with the last segment of the left part). -/
def combineSplits : List (List CC) → List (List CC) → List (List CC)
  | [], ys => ys
  | [x], [] => [x]
  | [x], y :: ys => (x ++ y) :: ys
  | x :: xs, ys => x :: combineSplits xs ys

/-- Rejoin segments with dots (inverse of `splitDotsCC`). -/
def joinDotsCC : List (List CC) → List CC
  | [] => []
  | [s] => s
  | s :: ss => s ++ CC.dot :: joinDotsCC ss

/-- Split a string at its dots. -/
def splitDots : List Char → List (List Char)
  | [] => [[]]
  | c :: cs =>
    if c = NS_SEP then [] :: splitDots cs
    else
      match splitDots cs with
      | [] => [[c]]
      | seg :: rest => (c :: seg) :: rest

/-- A first segment `[A-Za-z][_a-zA-Z0-9]*`, on characters. -/
def firstSegB : List Char → Bool
  | [] => false
  | c :: cs => isLetterChar c && cs.all isWordChar

/-- A later segment `[_A-Za-z][_a-zA-Z0-9]*`, on characters. -/
def laterSegB : List Char → Bool
  | [] => false
  | c :: cs => (isLetterChar c || c == '_') && cs.all isWordChar

/-- The dot-separated-segment reading of the namespace regex: first segment
starts with a letter, later segments may also start with an underscore. -/
def nsGrammarChars (l : List Char) : Bool :=
  match splitDots l with
  | [] => false
  | first :: rest => firstSegB first && rest.all laterSegB

/-- Modelled from the spec's words (the grammar asserted by claim C7): the
exact reserved default-namespace sentinel, or dot-separated segments that
EVERY one matches `[A-Za-z][A-Za-z0-9_]*`. -/
def claimNsGrammar (s : String) : Bool :=
  (s == DEFAULT_NS) || (splitDots s.toList).all firstSegB

/-- The amended grammar: the sentinel, or — after stripping the single
trailing newline that CPython's `$` tolerates, when one is present —
dot-separated segments whose first matches `[A-Za-z][A-Za-z0-9_]*` while the
later ones match `[A-Za-z_][A-Za-z0-9_]*` (underscore allowed at the start of
non-first segments). -/
def amendedNsGrammar (s : String) : Bool :=
  (s == DEFAULT_NS) ||
    (nsGrammarChars s.toList ||
      (s.toList.getLast? == some '\n' && nsGrammarChars s.toList.dropLast))

theorem combineSplits_nil (ys : List (List CC)) : combineSplits [] ys = ys := rfl

theorem combineSplits_single (x y : List CC) (ys : List (List CC)) :
    combineSplits [x] (y :: ys) = (x ++ y) :: ys := rfl

theorem combineSplits_cons₂ (x0 x1 : List CC) (xs ys : List (List CC)) :
    combineSplits (x0 :: x1 :: xs) ys = x0 :: combineSplits (x1 :: xs) ys := rfl

theorem joinDotsCC_single (s : List CC) : joinDotsCC [s] = s := rfl

theorem joinDotsCC_pair (s t : List CC) (ts : List (List CC)) :
    joinDotsCC (s :: t :: ts) = s ++ CC.dot :: joinDotsCC (t :: ts) := rfl

theorem splitDotsCC_ne_nil : ∀ x : List CC, splitDotsCC x ≠ [] := by
  intro x
  induction x with
  | nil => simp [splitDotsCC]
  | cons a as ih =>
    rw [splitDotsCC]
    by_cases h : a = CC.dot
    · simp [h]
    · simp only [h, if_false]
      cases hs : splitDotsCC as with
      | nil => simp
      | cons seg rest => simp

theorem splitDots_ne_nil : ∀ x : List Char, splitDots x ≠ [] := by
  intro x
  induction x with
  | nil => simp [splitDots]
  | cons c cs ih =>
    rw [splitDots]
    by_cases h : c = NS_SEP
    · simp [h]
    · simp only [h, if_false]
      cases hs : splitDots cs with
      | nil => simp
      | cons seg rest => simp

theorem splitDotsCC_nodot : ∀ x : List CC, (∀ a ∈ x, a ≠ CC.dot) → splitDotsCC x = [x] := by
  intro x h
  induction x with
  | nil => rfl
  | cons a as ih =>
    rw [splitDotsCC, if_neg (h a (List.mem_cons_self a as)),
      ih (fun y hy => h y (List.mem_cons_of_mem a hy))]

theorem splitDotsCC_append (x y : List CC) :
    splitDotsCC (x ++ y) = combineSplits (splitDotsCC x) (splitDotsCC y) := by
  induction x with
  | nil =>
    show splitDotsCC y = combineSplits [[]] (splitDotsCC y)
    cases hy : splitDotsCC y with
    | nil => exact absurd hy (splitDotsCC_ne_nil y)
    | cons y0 ys => rw [combineSplits_single]; rfl
  | cons a as ih =>
    by_cases h : a = CC.dot
    · subst h
      show splitDotsCC (CC.dot :: (as ++ y)) = _
      rw [splitDotsCC, if_pos rfl, ih]
      have hR : splitDotsCC (CC.dot :: as) = [] :: splitDotsCC as := by
        rw [splitDotsCC, if_pos rfl]
      rw [hR]
      cases hs : splitDotsCC as with
      | nil => exact absurd hs (splitDotsCC_ne_nil as)
      | cons s0 srest => rw [combineSplits_cons₂]
    · show splitDotsCC (a :: (as ++ y)) = _
      rw [splitDotsCC, if_neg h, ih]
      have hR : splitDotsCC (a :: as) =
          match splitDotsCC as with
          | [] => [[a]]
          | seg :: rest => (a :: seg) :: rest := by
        rw [splitDotsCC, if_neg h]
      rw [hR]
      cases hs : splitDotsCC as with
      | nil => exact absurd hs (splitDotsCC_ne_nil as)
      | cons s0 srest =>
        cases srest with
        | nil =>
          cases hy : splitDotsCC y with
          | nil => exact absurd hy (splitDotsCC_ne_nil y)
          | cons y0 ys =>
            rw [combineSplits_single, combineSplits_single]
            rfl
        | cons s1 srest' =>
          rw [combineSplits_cons₂, combineSplits_cons₂]

theorem combineSplits_emptyHead :
    ∀ S : List (List CC), ∀ T : List (List CC), S ≠ [] →
      combineSplits S ([] :: T) = S ++ T := by
  intro S
  induction S with
  | nil => intro T h; exact absurd rfl h
  | cons s0 ss ih =>
    intro T _
    cases ss with
    | nil => rw [combineSplits_single]; simp
    | cons s1 ss' =>
      rw [combineSplits_cons₂, ih T (by simp)]
      rfl

theorem joinDotsCC_splitDotsCC : ∀ x : List CC, joinDotsCC (splitDotsCC x) = x := by
  intro x
  induction x with
  | nil => rfl
  | cons a as ih =>
    rw [splitDotsCC]
    by_cases h : a = CC.dot
    · subst h
      rw [if_pos rfl]
      cases hs : splitDotsCC as with
      | nil => exact absurd hs (splitDotsCC_ne_nil as)
      | cons s0 srest =>
        rw [joinDotsCC_pair]
        rw [hs] at ih
        rw [ih]
        rfl
    · rw [if_neg h]
      cases hs : splitDotsCC as with
      | nil => exact absurd hs (splitDotsCC_ne_nil as)
      | cons s0 srest =>
        rw [hs] at ih
        cases srest with
        | nil =>
          rw [joinDotsCC_single]
          rw [joinDotsCC_single] at ih
          rw [ih]
        | cons s1 srest' =>
          rw [joinDotsCC_pair]
          rw [joinDotsCC_pair] at ih
          rw [List.cons_append, ih]

theorem joinDotsCC_eq_flatten :
    ∀ (ss : List (List CC)) (s0 : List CC),
      joinDotsCC (s0 :: ss) = s0 ++ (ss.map (fun s => CC.dot :: s)).flatten := by
  intro ss
  induction ss with
  | nil => intro s0; simp [joinDotsCC_single]
  | cons t ts ih =>
    intro s0
    rw [joinDotsCC_pair, ih t]
    simp

theorem wordCCB_cases (a : CC) (h : wordCCB a = true) :
    a = CC.letter ∨ a = CC.digit ∨ a = CC.uscore := by
  cases a <;> simp_all [wordCCB]

theorem wordCCB_ne_dot (a : CC) (h : wordCCB a = true) : a ≠ CC.dot := by
  intro hc
  subst hc
  exact absurd h (by decide)

theorem firstSegCCB_nodot (t : List CC) (h : firstSegCCB t = true) :
    ∀ a ∈ t, a ≠ CC.dot := by
  cases t with
  | nil => simp [firstSegCCB] at h
  | cons a as =>
    simp only [firstSegCCB, Bool.and_eq_true, beq_iff_eq, List.all_eq_true] at h
    intro x hx
    rcases List.mem_cons.mp hx with rfl | hm
    · rw [h.1]; decide
    · exact wordCCB_ne_dot x (h.2 x hm)

theorem laterSegCCB_nodot (t : List CC) (h : laterSegCCB t = true) :
    ∀ a ∈ t, a ≠ CC.dot := by
  cases t with
  | nil => simp [laterSegCCB] at h
  | cons a as =>
    simp only [laterSegCCB, Bool.and_eq_true, Bool.or_eq_true, beq_iff_eq,
      List.all_eq_true] at h
    intro x hx
    rcases List.mem_cons.mp hx with rfl | hm
    · rcases h.1 with rfl | rfl <;> decide
    · exact wordCCB_ne_dot x (h.2 x hm)

theorem laterSegCCB_allword (t : List CC) (h : laterSegCCB t = true) :
    t.all wordCCB = true := by
  cases t with
  | nil => simp [laterSegCCB] at h
  | cons a as =>
    simp only [laterSegCCB, Bool.and_eq_true, Bool.or_eq_true, beq_iff_eq] at h
    simp only [List.all_cons, Bool.and_eq_true]
    refine ⟨?_, h.2⟩
    rcases h.1 with rfl | rfl <;> decide

theorem firstSegCCB_append (s t : List CC) (hs : firstSegCCB s = true)
    (ht : t.all wordCCB = true) : firstSegCCB (s ++ t) = true := by
  cases s with
  | nil => simp [firstSegCCB] at hs
  | cons a as =>
    simp only [List.cons_append, firstSegCCB, Bool.and_eq_true, List.all_append] at hs ⊢
    exact ⟨hs.1, hs.2, ht⟩

theorem laterSegCCB_append (s t : List CC) (hs : laterSegCCB s = true)
    (ht : t.all wordCCB = true) : laterSegCCB (s ++ t) = true := by
  cases s with
  | nil => simp [laterSegCCB] at hs
  | cons a as =>
    simp only [List.cons_append, laterSegCCB, Bool.and_eq_true, List.all_append] at hs ⊢
    exact ⟨hs.1, hs.2, ht⟩

theorem combineSplits_single_later :
    ∀ (ss : List (List CC)) (u t : List CC), laterSegCCB u = true →
      (∀ s ∈ ss, laterSegCCB s = true) → t.all wordCCB = true →
      ∀ s ∈ combineSplits (u :: ss) [t], laterSegCCB s = true := by
  intro ss
  induction ss with
  | nil =>
    intro u t hu _ ht s hs
    rw [combineSplits_single] at hs
    rcases List.mem_cons.mp hs with rfl | hm
    · exact laterSegCCB_append u t hu ht
    · simp at hm
  | cons s1 ss' ih =>
    intro u t hu hss ht s hs
    rw [combineSplits_cons₂] at hs
    rcases List.mem_cons.mp hs with rfl | hm
    · exact hu
    · exact ih s1 t (hss s1 (by simp)) (fun z hz => hss z (by simp [hz])) ht s hm

theorem combineSplits_single_good (ss : List (List CC)) (s0 t : List CC)
    (h0 : firstSegCCB s0 = true) (hss : ∀ s ∈ ss, laterSegCCB s = true)
    (ht : t.all wordCCB = true) :
    ∃ s0' ss', combineSplits (s0 :: ss) [t] = s0' :: ss' ∧ firstSegCCB s0' = true ∧
      ∀ s ∈ ss', laterSegCCB s = true := by
  cases ss with
  | nil =>
    refine ⟨s0 ++ t, [], by rw [combineSplits_single], firstSegCCB_append s0 t h0 ht, ?_⟩
    simp
  | cons s1 ss' =>
    refine ⟨s0, combineSplits (s1 :: ss') [t], by rw [combineSplits_cons₂], h0, ?_⟩
    exact combineSplits_single_later ss' s1 t (hss s1 (by simp))
      (fun z hz => hss z (by simp [hz])) ht

/-- The decomposition that `VALID_NS_NAMES` acceptance amounts to: segments
split at dots, the first letter-headed, the rest letter-or-underscore-headed,
all word-tailed. -/
def GoodCC (x : List CC) : Prop :=
  ∃ s0 ss, splitDotsCC x = s0 :: ss ∧ firstSegCCB s0 = true ∧
    ∀ s ∈ ss, laterSegCCB s = true

theorem flatten_map_singleton (y : List CC) :
    (y.map (fun a => [a])).flatten = y := by
  induction y with
  | nil => rfl
  | cons a as ih => simp only [List.map_cons, List.flatten_cons, List.singleton_append, ih]

theorem mem_wordStar (y : List CC) :
    y ∈ wordRE.star.matches' ↔ y.all wordCCB = true := by
  rw [RegularExpression.matches'_star, Language.mem_kstar]
  constructor
  · rintro ⟨L, rfl, hL⟩
    rw [List.all_eq_true]
    intro a ha
    rw [List.mem_flatten] at ha
    obtain ⟨z, hz, haz⟩ := ha
    have hzm := hL z hz
    rw [wordRE, RegularExpression.matches'_add, RegularExpression.matches'_add,
      Language.mem_add, Language.mem_add, RegularExpression.matches'_char,
      RegularExpression.matches'_char, RegularExpression.matches'_char] at hzm
    rcases hzm with (hz1 | hz2) | hz3
    · rw [Set.mem_singleton_iff] at hz1
      subst hz1
      simp only [List.mem_singleton] at haz
      subst haz
      decide
    · rw [Set.mem_singleton_iff] at hz2
      subst hz2
      simp only [List.mem_singleton] at haz
      subst haz
      decide
    · rw [Set.mem_singleton_iff] at hz3
      subst hz3
      simp only [List.mem_singleton] at haz
      subst haz
      decide
  · intro h
    refine ⟨y.map (fun a => [a]), (flatten_map_singleton y).symm, ?_⟩
    intro z hz
    rw [List.mem_map] at hz
    obtain ⟨a, ha, rfl⟩ := hz
    rw [List.all_eq_true] at h
    have := wordCCB_cases a (h a ha)
    rw [wordRE, RegularExpression.matches'_add, RegularExpression.matches'_add,
      Language.mem_add, Language.mem_add, RegularExpression.matches'_char,
      RegularExpression.matches'_char, RegularExpression.matches'_char]
    rcases this with rfl | rfl | rfl
    · exact Or.inl (Or.inl rfl)
    · exact Or.inl (Or.inr rfl)
    · exact Or.inr rfl

theorem mem_firstSeg (x : List CC) :
    x ∈ firstSegRE.matches' ↔ firstSegCCB x = true := by
  rw [firstSegRE, RegularExpression.matches'_mul, Language.mem_mul]
  constructor
  · rintro ⟨a, ha, b, hb, rfl⟩
    rw [RegularExpression.matches'_char, Set.mem_singleton_iff] at ha
    subst ha
    rw [mem_wordStar] at hb
    simp [firstSegCCB, hb]
  · intro h
    cases x with
    | nil => simp [firstSegCCB] at h
    | cons a as =>
      simp only [firstSegCCB, Bool.and_eq_true, beq_iff_eq] at h
      obtain ⟨rfl, has⟩ := h
      exact ⟨[CC.letter], by rw [RegularExpression.matches'_char]; rfl, as,
        (mem_wordStar as).mpr has, rfl⟩

theorem mem_group (g : List CC) :
    g ∈ groupRE.matches' ↔
      ∃ t, (g = t ∨ g = CC.dot :: t) ∧ laterSegCCB t = true := by
  rw [groupRE, RegularExpression.matches'_mul, Language.mem_mul]
  constructor
  · rintro ⟨a, ha, b, hb, rfl⟩
    rw [RegularExpression.matches'_add, Language.mem_add,
      RegularExpression.matches'_epsilon, Language.mem_one,
      RegularExpression.matches'_char, Set.mem_singleton_iff] at ha
    rw [RegularExpression.matches'_mul, Language.mem_mul] at hb
    obtain ⟨h0, hh0, w, hw, rfl⟩ := hb
    rw [RegularExpression.matches'_add, Language.mem_add,
      RegularExpression.matches'_char, RegularExpression.matches'_char,
      Set.mem_singleton_iff, Set.mem_singleton_iff] at hh0
    rw [mem_wordStar] at hw
    have hlat : laterSegCCB (h0 ++ w) = true := by
      rcases hh0 with rfl | rfl
      · simp [laterSegCCB, hw]
      · simp [laterSegCCB, hw]
    refine ⟨h0 ++ w, ?_, hlat⟩
    rcases ha with rfl | rfl
    · exact Or.inl (by simp)
    · exact Or.inr rfl
  · rintro ⟨t, hgor, ht⟩
    cases t with
    | nil => simp [laterSegCCB] at ht
    | cons h0 w =>
      simp only [laterSegCCB, Bool.and_eq_true, Bool.or_eq_true, beq_iff_eq] at ht
      have hmem0 : [h0] ∈ (RegularExpression.char CC.uscore +
          RegularExpression.char CC.letter).matches' := by
        rw [RegularExpression.matches'_add, Language.mem_add,
          RegularExpression.matches'_char, RegularExpression.matches'_char]
        rcases ht.1 with rfl | rfl
        · exact Or.inr rfl
        · exact Or.inl rfl
      have hbmem : h0 :: w ∈ ((RegularExpression.char CC.uscore +
          RegularExpression.char CC.letter) * wordRE.star).matches' := by
        rw [RegularExpression.matches'_mul, Language.mem_mul]
        exact ⟨[h0], hmem0, w, (mem_wordStar w).mpr ht.2, rfl⟩
      rcases hgor with rfl | rfl
      · refine ⟨[], ?_, h0 :: w, hbmem, by simp⟩
        rw [RegularExpression.matches'_add, Language.mem_add,
          RegularExpression.matches'_epsilon, Language.mem_one]
        exact Or.inl rfl
      · refine ⟨[CC.dot], ?_, h0 :: w, hbmem, rfl⟩
        rw [RegularExpression.matches'_add, Language.mem_add,
          RegularExpression.matches'_char, Set.mem_singleton_iff]
        exact Or.inr rfl

theorem good_append_group (a g : List CC) (ha : GoodCC a)
    (hg : g ∈ groupRE.matches') : GoodCC (a ++ g) := by
  obtain ⟨s0, ss, hsplit, h0, hss⟩ := ha
  rw [mem_group] at hg
  obtain ⟨t, hgor, ht⟩ := hg
  have hnodot := laterSegCCB_nodot t ht
  have htw := laterSegCCB_allword t ht
  rcases hgor with hgt | hgt
  · rw [hgt]
    rw [GoodCC, splitDotsCC_append, hsplit, splitDotsCC_nodot t hnodot]
    exact combineSplits_single_good ss s0 t h0 hss htw
  · rw [hgt]
    rw [GoodCC, splitDotsCC_append, hsplit]
    have hsg : splitDotsCC (CC.dot :: t) = [] :: [t] := by
      rw [splitDotsCC, if_pos rfl, splitDotsCC_nodot t hnodot]
    rw [hsg, combineSplits_emptyHead (s0 :: ss) [t] (by simp)]
    refine ⟨s0, ss ++ [t], by simp, h0, ?_⟩
    intro s hs
    rcases List.mem_append.mp hs with hm | hm
    · exact hss s hm
    · simp only [List.mem_singleton] at hm
      subst hm
      exact ht

theorem good_append_flatten :
    ∀ (gs : List (List CC)) (a : List CC), GoodCC a →
      (∀ g ∈ gs, g ∈ groupRE.matches') → GoodCC (a ++ gs.flatten) := by
  intro gs
  induction gs with
  | nil => intro a ha _; simpa using ha
  | cons g gs' ih =>
    intro a ha hmem
    rw [List.flatten_cons, ← List.append_assoc]
    exact ih (a ++ g) (good_append_group a g ha (hmem g (by simp)))
      (fun x hx => hmem x (by simp [hx]))

theorem mem_VALID_iff (x : List CC) :
    x ∈ VALID_NS_NAMES.matches' ↔ GoodCC x := by
  rw [VALID_NS_NAMES, RegularExpression.matches'_mul, Language.mem_mul]
  constructor
  · rintro ⟨a, ha, b, hb, rfl⟩
    rw [RegularExpression.matches'_star, Language.mem_kstar] at hb
    obtain ⟨gs, rfl, hgs⟩ := hb
    have ha' : GoodCC a := by
      rw [mem_firstSeg] at ha
      exact ⟨a, [], by rw [splitDotsCC_nodot a (firstSegCCB_nodot a ha)], ha, by simp⟩
    exact good_append_flatten gs a ha' hgs
  · rintro ⟨s0, ss, hsplit, h0, hss⟩
    have hx : x = s0 ++ (ss.map (fun s => CC.dot :: s)).flatten := by
      have hj := joinDotsCC_splitDotsCC x
      rw [hsplit, joinDotsCC_eq_flatten] at hj
      exact hj.symm
    refine ⟨s0, (mem_firstSeg s0).mpr h0,
      (ss.map (fun s => CC.dot :: s)).flatten, ?_, hx.symm⟩
    rw [RegularExpression.matches'_star]
    apply Language.join_mem_kstar
    intro y hy
    rw [List.mem_map] at hy
    obtain ⟨s, hs, rfl⟩ := hy
    exact (mem_group (CC.dot :: s)).mpr ⟨s, Or.inr rfl, hss s hs⟩

theorem cclass_dot_iff (c : Char) : cclass c = CC.dot ↔ c = NS_SEP := by
  rw [cclass]
  split_ifs with h1 h2 h3 h4
  · constructor
    · intro hF; exact absurd hF (by decide)
    · intro hc; subst hc; exact absurd h1 (by decide)
  · constructor
    · intro hF; exact absurd hF (by decide)
    · intro hc; subst hc; exact absurd h2 (by decide)
  · constructor
    · intro hF; exact absurd hF (by decide)
    · intro hc; subst hc; exact absurd h3 (by decide)
  · simp only [h4, NS_SEP]
  · constructor
    · intro hF; exact absurd hF (by decide)
    · intro hc; exact absurd hc h4

theorem cclass_letter_beq (c : Char) : (cclass c == CC.letter) = isLetterChar c := by
  rw [cclass, isLetterChar]
  split_ifs with h1 h2 h3 h4
  · simp [h1]
  · simp [h1]
  · simp [h1]
  · simp [h1]
  · simp [h1]

theorem cclass_word (c : Char) : wordCCB (cclass c) = isWordChar c := by
  rw [cclass, isWordChar]
  split_ifs with h1 h2 h3 h4
  · simp [h1, wordCCB]
  · simp [h1, h2, wordCCB]
  · subst h3; simp [h1, h2, wordCCB]
  · subst h4
    simp [h1, h2, wordCCB]
  · simp only [h1, h2, Bool.false_or]
    have : (c == '_') = false := by
      rw [beq_eq_false_iff_ne]
      exact h3
    simp [this, wordCCB]

theorem all_word_map (cs : List Char) :
    (cs.map cclass).all wordCCB = cs.all isWordChar := by
  induction cs with
  | nil => rfl
  | cons c rest ih => simp only [List.map_cons, List.all_cons, ih, cclass_word]

theorem cclass_later (c : Char) :
    (cclass c == CC.letter || cclass c == CC.uscore) = (isLetterChar c || c == '_') := by
  rw [cclass, isLetterChar]
  split_ifs with h1 h2 h3 h4
  · simp [h1]
  · simp only [h1, Bool.false_or]
    have : (c == '_') = false := by
      rw [beq_eq_false_iff_ne]
      intro hc; subst hc; exact absurd h2 (by decide)
    simp [this]
  · subst h3; simp [h1]
  · subst h4
    simp [h1]
  · simp only [h1, Bool.false_or]
    have : (c == '_') = false := by
      rw [beq_eq_false_iff_ne]
      exact h3
    simp [this]

theorem splitDots_map (l : List Char) :
    splitDotsCC (l.map cclass) = (splitDots l).map (List.map cclass) := by
  induction l with
  | nil => rfl
  | cons c cs ih =>
    simp only [List.map_cons]
    rw [splitDotsCC, splitDots]
    by_cases h : c = NS_SEP
    · rw [if_pos ((cclass_dot_iff c).mpr h), if_pos h, ih]
      simp
    · rw [if_neg (fun hc => h ((cclass_dot_iff c).mp hc)), if_neg h, ih]
      cases hs : splitDots cs with
      | nil => exact absurd hs (splitDots_ne_nil cs)
      | cons seg rest => simp

theorem firstSeg_transfer (s : List Char) : firstSegCCB (s.map cclass) = firstSegB s := by
  cases s with
  | nil => rfl
  | cons c cs =>
    simp only [List.map_cons, firstSegCCB, firstSegB]
    rw [cclass_letter_beq, all_word_map]

theorem laterSeg_transfer (s : List Char) : laterSegCCB (s.map cclass) = laterSegB s := by
  cases s with
  | nil => rfl
  | cons c cs =>
    simp only [List.map_cons, laterSegCCB, laterSegB]
    rw [cclass_later, all_word_map]

theorem rmatch_eq_nsGrammarChars (l : List Char) :
    VALID_NS_NAMES.rmatch (l.map cclass) = nsGrammarChars l := by
  rw [Bool.eq_iff_iff, RegularExpression.rmatch_iff_matches', mem_VALID_iff]
  constructor
  · rintro ⟨s0, ss, hsplit, h0, hss⟩
    rw [splitDots_map] at hsplit
    cases hl : splitDots l with
    | nil => exact absurd hl (splitDots_ne_nil l)
    | cons l0 ls =>
      rw [hl] at hsplit
      simp only [List.map_cons, List.cons.injEq] at hsplit
      obtain ⟨h1, h2⟩ := hsplit
      rw [nsGrammarChars, hl]
      simp only [Bool.and_eq_true]
      constructor
      · rw [← firstSeg_transfer l0, h1]; exact h0
      · rw [List.all_eq_true]
        intro seg hseg
        rw [← laterSeg_transfer seg]
        exact hss (seg.map cclass) (by rw [← h2]; exact List.mem_map_of_mem _ hseg)
  · intro h
    rw [nsGrammarChars] at h
    cases hl : splitDots l with
    | nil => exact absurd hl (splitDots_ne_nil l)
    | cons l0 ls =>
      rw [hl] at h
      simp only [Bool.and_eq_true, List.all_eq_true] at h
      refine ⟨l0.map cclass, ls.map (List.map cclass), ?_, ?_, ?_⟩
      · rw [splitDots_map, hl]; rfl
      · rw [firstSeg_transfer]; exact h.1
      · intro s hs
        rw [List.mem_map] at hs
        obtain ⟨seg, hseg, rfl⟩ := hs
        rw [laterSeg_transfer]
        exact h.2 seg hseg

/-- Counterexample to claim C7: the code accepts the name `a._b` (the regex
lets non-first segments start with an underscore) although the grammar
asserted by the claim rejects it. -/
theorem claim_C7_counterexample :
    isnsnamevalid "a._b" = true ∧ claimNsGrammar "a._b" = false :=
  ⟨by decide, by decide⟩

/-- Claim C7 as amended: `isnsnamevalid` accepts a string exactly when it is
the reserved default-namespace sentinel, or — after stripping a single
trailing newline when one is present (CPython's `$` matches just before it) —
dot-separated segments whose FIRST segment matches `[A-Za-z][A-Za-z0-9_]*`
and whose later segments match `[A-Za-z_][A-Za-z0-9_]*` — non-first segments
may start with an underscore. -/
theorem claim_C7_amended (s : String) : isnsnamevalid s = amendedNsGrammar s := by
  cases hD : (s == DEFAULT_NS)
  · cases hE : s.isEmpty
    · simp only [isnsnamevalid, amendedNsGrammar, dollarMatch, hD, hE, Bool.false_or,
        Bool.not_false, Bool.true_and]
      rw [rmatch_eq_nsGrammarChars, rmatch_eq_nsGrammarChars]
    · have hs : s = "" := (String.isEmpty_iff s).mp hE
      subst hs
      decide
  · have hs : s = DEFAULT_NS := eq_of_beq hD
    subst hs
    decide
